import Mathlib

/-!
Verification of the version-resolution engine, remote-lookup retry policy and
agentic orchestration loop of the data-store matcher.

The Python sources are shallowly embedded:
* strings are `List Char` (`PyStr`); `str.strip`, `str.split('.')`,
  `str.find`, slicing and the regular-expression substitutions used by the
  code are modelled as executable Lean functions over `List Char`;
* the `$` anchor of Python regular expressions is modelled as end-of-string
  (the Python nuance that `$` also matches just before one trailing newline
  is not modelled; no statement below involves a trailing newline); `.`
  cannot cross a newline, so the `.*$` tail of the edition pattern is
  modelled as requiring a newline-free remainder after the qualifier;
* `\s` is modelled by `Char.isWhitespace` (the ASCII whitespace characters);
* `float(...)` applied to a dot-free component is modelled as exact rational
  parsing of an optionally signed decimal-digit token
  (`inf`/`nan`/exponent/underscore forms are treated as parse failures); the
  program performs the subsequent arithmetic and minimization in IEEE
  binary64, whose rounding can strictly resolve exact decimal ties, so the
  embedding draws only branch-level conclusions from the numeric values
  (which conversions fail; that the selection returns one of the
  candidates) and never exact-minimality or tie-break conclusions;
* the HTTP transport, the completion service and `json.loads` are external
  collaborators and enter as explicit parameters (a response schedule
  `Nat → HttpEvent`, a response schedule `Nat → ModelResponse`, and a parser
  `PyStr → Option Json` respectively); human-readable `error_message`
  strings built from interpolated runtime data are not modelled, the
  machine-readable `status` / `error_type` / `retry_count` fields are.
-/

/-- Python strings, as lists of characters. -/
abbrev PyStr := List Char

/-- Membership test for Python string-whitespace (`\s`, ASCII fragment). -/
def isWs (c : Char) : Bool := c.isWhitespace

/-- Python `str.lower` (ASCII case folding). -/
def pyLower (s : PyStr) : PyStr := s.map Char.toLower

/-- Python `str.lstrip()`. -/
def lstrip (s : PyStr) : PyStr := s.dropWhile isWs

/-- Python `str.rstrip()` (`List.rdropWhile` is exactly removal of the
longest whitespace suffix). -/
def rstrip (s : PyStr) : PyStr := List.rdropWhile isWs s

/-- Python `str.strip()`. -/
def pyStrip (s : PyStr) : PyStr := rstrip (lstrip s)

/-- Python `str.split('.')`: the list of `'.'`-separated components
(`"".split('.') == [""]`, so the result is never empty). -/
def splitDot : PyStr → List PyStr
  | [] => [[]]
  | c :: rest =>
    if c = '.' then [] :: splitDot rest
    else
      match splitDot rest with
      | [] => [[c]]
      | p :: ps => (c :: p) :: ps

/-- Python `'.'.join(parts)`. -/
def joinDot : List PyStr → PyStr
  | [] => []
  | [p] => p
  | p :: ps => p ++ '.' :: joinDot ps

/-! ## `normalize_version` (src/mcp_server/tools/endoflife_lookup.py, lines 104-114) -/

/-- First substitution `re.sub(r'[.\-]x$', '', version)`: drop a trailing
`".x"` or `"-x"` (the pattern is case-sensitive, `x` lowercase only). -/
def stripDotX (s : PyStr) : PyStr :=
  if ['.', 'x'].isSuffixOf s || ['-', 'x'].isSuffixOf s then s.take (s.length - 2) else s

/-- Second substitution `re.sub(r'-log$', '', version, flags=re.IGNORECASE)`. -/
def stripLog (s : PyStr) : PyStr :=
  if ['-', 'l', 'o', 'g'].isSuffixOf (pyLower s) then s.take (s.length - 4) else s

/-- Does the string begin with `SP` followed by a digit, case-insensitively?
(the first characters `\d+` can match of `SP\d+` when `.*` follows). -/
def spDigitAt : PyStr → Bool
  | a :: b :: c :: _ => a.toLower == 's' && b.toLower == 'p' && c.isDigit
  | _ => false

/-- Does the string begin with `R` followed by a digit, case-insensitively? -/
def rDigitAt : PyStr → Bool
  | a :: b :: _ => a.toLower == 'r' && b.isDigit
  | _ => false

/-- Is the string free of newline characters? Python's `.` (no `re.DOTALL`)
cannot cross a newline, so `.*$` completes a match only when no newline
follows the matched qualifier. -/
def noNl (cs : PyStr) : Bool := cs.all (fun c => c != '\n')

/-- Does one of the qualifier alternatives
`SP\d+|R\d+|Enterprise|Standard|Express|Developer` match at the head of the
string, case-insensitively, with `.*$` able to finish the match — i.e. with
no newline anywhere after the qualifier? The tail is checked after the
minimal qualifier match (`SP`/`R` plus one digit, or the full keyword):
extra digits taken by `\d+` are never newlines, so the newline-freeness of
the remainder is the same for every parse of `\d+`. -/
def qualStartsOk (l : PyStr) : Bool :=
  (spDigitAt l && noNl (l.drop 3))
  || (rDigitAt l && noNl (l.drop 2))
  || (['e','n','t','e','r','p','r','i','s','e'].isPrefixOf (pyLower l) && noNl (l.drop 10))
  || (['s','t','a','n','d','a','r','d'].isPrefixOf (pyLower l) && noNl (l.drop 8))
  || (['e','x','p','r','e','s','s'].isPrefixOf (pyLower l) && noNl (l.drop 7))
  || (['d','e','v','e','l','o','p','e','r'].isPrefixOf (pyLower l) && noNl (l.drop 9))

/-- Does `\s+(SP\d+|R\d+|Enterprise|...).*$` match at the head of the
string: one or more whitespace characters (newlines are whitespace), then a
qualifier whose remainder is newline-free? -/
def wsThenQual : PyStr → Bool
  | [] => false
  | c :: rest => isWs c && (qualStartsOk rest || wsThenQual rest)

/-- Third substitution
`re.sub(r'\s+(SP\d+|R\d+|Enterprise|Standard|Express|Developer).*$', '', version, flags=re.IGNORECASE)`:
delete everything from the leftmost position where the pattern matches.
Because `.*` cannot cross a newline and `$` is modelled as end-of-string,
the pattern matches only where no newline follows the qualifier, and the
match then extends to the end of the string. -/
def stripEdition : PyStr → PyStr
  | [] => []
  | c :: rest => if wsThenQual (c :: rest) then [] else c :: stripEdition rest

/-- The string after the three substitutions, before the split on `'.'`. -/
def strippedStage (version : PyStr) : PyStr :=
  stripEdition (stripLog (stripDotX version))

/-- `normalize_version` (endoflife_lookup.py lines 104-114): strip the three
suffix patterns, then keep at most the first two dot-separated components;
a single-component string is returned `.strip()`-ed, a multi-component one is
rejoined from its first two components unchanged. -/
def normalize_version (version : PyStr) : PyStr :=
  let v3 := strippedStage version
  let parts := splitDot v3
  if 1 < parts.length then joinDot (parts.take 2) else pyStrip v3

/-! ## `find_closest_version` (endoflife_lookup.py, lines 117-145) -/

/-- Numeric value of a list of decimal digits. -/
def digitsToNat (l : PyStr) : ℕ :=
  l.foldl (fun n c => 10 * n + (c.toNat - 48)) 0

/-- Model of Python `float(s)` on a dot-free component: surrounding
whitespace is ignored, an optional sign precedes a non-empty run of decimal
digits; anything else fails (see the header for the forms not modelled).
On this domain `float` is exact, so the result is an integer. -/
def pyFloatInt (s : PyStr) : Option ℤ :=
  let core : PyStr → Option ℤ := fun d =>
    if d ≠ [] ∧ d.all Char.isDigit then some (digitsToNat d : ℤ) else none
  match pyStrip s with
  | '+' :: r => core r
  | '-' :: r => (core r).map (fun q => -q)
  | t => core t

/-- `float(parts[0]) + (float(parts[1]) / 100 if len(parts) > 1 else 0)`
for `parts = s.split('.')`; `none` when Python would raise `ValueError`.
The value is recorded exactly in hundredths (`100 * major + minor : ℤ`) as
a reference for the branch structure. The program computes the expression
in IEEE binary64, where `minor / 100` rounds, so the reference value is not
used to conclude anything about minimality or tie-breaking — only whether
conversion succeeds, and that a converted candidate is selected. -/
def versionCents (s : PyStr) : Option ℤ :=
  match splitDot s with
  | [] => none
  | [p] => (pyFloatInt p).map (fun a => 100 * a)
  | p :: q :: _ => do
      let a ← pyFloatInt p
      let b ← pyFloatInt q
      pure (100 * a + b)

/-- The `version_floats` list built by the loop over `available_versions`
(values in hundredths); `none` as soon as one candidate raises `ValueError`
(which aborts the whole `try` block). -/
def candFloats : List PyStr → Option (List (PyStr × ℤ))
  | [] => some []
  | v :: vs => do
      let f ← versionCents v
      let rest ← candFloats vs
      pure ((v, f) :: rest)

/-- The left fold performed by Python's `min` with a key function, over the
exact reference values: the running best is replaced only on a strictly
smaller key. The program folds over IEEE doubles whose rounding can order
exact ties differently, so the theorems use only the fact that the result
is the accumulator or one of the folded elements. -/
def foldBest (tf : ℤ) : (PyStr × ℤ) → List (PyStr × ℤ) → PyStr × ℤ
  | b, [] => b
  | b, y :: ys => foldBest tf (if |y.2 - tf| < |b.2 - tf| then y else b) ys

/-- `min(version_floats, key=lambda x: abs(x[1] - target_float))`
(`min` of an empty sequence would raise, but the list is non-empty whenever
the code reaches it). -/
def minByAbs (tf : ℤ) : List (PyStr × ℤ) → Option (PyStr × ℤ)
  | [] => none
  | x :: xs => some (foldBest tf x xs)

/-- The predicate of the MAJOR loop:
`version == target_major or version.startswith(f"{target_major}.")`. -/
def isMajorMatch (major : PyStr) (v : PyStr) : Bool :=
  v == major || (major ++ ['.']).isPrefixOf v

/-- `find_closest_version` (endoflife_lookup.py lines 117-145). The pair is
`(matched value, match kind)`. The `try` block covers the conversion of the
target and of every candidate; `ValueError`/`IndexError` falls through to the
`LATEST` branch returning the first candidate. -/
def find_closest_version (target : PyStr) (avail : List PyStr) : Option PyStr × String :=
  if avail = [] then (none, "NOT_FOUND")
  else if target ∈ avail then (some target, "EXACT")
  else
    match avail.find? (isMajorMatch ((splitDot target).headI)) with
    | some v => (some v, "MAJOR")
    | none =>
      match versionCents target with
      | none => (some avail.headI, "LATEST")
      | some tf =>
        match candFloats avail with
        | none => (some avail.headI, "LATEST")
        | some vfs =>
          match minByAbs tf vfs with
          | some best => (some best.1, "CLOSEST")
          | none => (some avail.headI, "LATEST")

/-! ## `call_endoflife_api` (endoflife_lookup.py, lines 148-209)

The HTTP transport is external; one run of the function is driven by a
response schedule `resp : ℕ → HttpEvent` giving the outcome of the request
made on each zero-based attempt index. The embedding returns the terminal
result together with the number of requests actually issued. -/

/-- Outcome of a single `requests.get` call. -/
inductive HttpEvent
  | status (code : ℕ)
  | timeout
  | reqError
deriving DecidableEq

/-- The machine-readable fields of the dictionaries `call_endoflife_api`
returns (`error_message` strings and the success payload are not modelled). -/
structure ApiResult where
  status : String
  errorType : Option String := none
  retryCount : Option ℕ := none
  statusCode : Option ℕ := none
deriving DecidableEq

/-- Body of the `for attempt in range(max_retries)` loop; `fuel` is the
number of remaining loop iterations, `attempt` the current zero-based index
(so `fuel + attempt = maxRetries` throughout), and the returned `ℕ` counts
the requests issued. Running out of fuel is the fall-through after the loop,
returning the `MAX_RETRIES` error. -/
def callApiGo (resp : ℕ → HttpEvent) (maxRetries : ℕ) : ℕ → ℕ → ApiResult × ℕ
  | 0, attempt => ({ status := "error", errorType := some "MAX_RETRIES" }, attempt)
  | fuel + 1, attempt =>
    match resp attempt with
    | .status 200 => ({ status := "success" }, attempt + 1)
    | .status 404 => ({ status := "not_found", errorType := some "PRODUCT_NOT_FOUND" }, attempt + 1)
    | .status 429 => callApiGo resp maxRetries fuel (attempt + 1)
    | .status c => ({ status := "error", errorType := some "HTTP_ERROR", statusCode := some c }, attempt + 1)
    | .timeout =>
      if attempt < maxRetries - 1 then callApiGo resp maxRetries fuel (attempt + 1)
      else ({ status := "error", errorType := some "TIMEOUT", retryCount := some maxRetries }, attempt + 1)
    | .reqError =>
      if attempt < maxRetries - 1 then callApiGo resp maxRetries fuel (attempt + 1)
      else ({ status := "error", errorType := some "REQUEST_ERROR", retryCount := some maxRetries }, attempt + 1)

/-- `call_endoflife_api` (endoflife_lookup.py lines 148-209), as a function
of the response schedule and the `max_retries` argument. -/
def call_endoflife_api (resp : ℕ → HttpEvent) (maxRetries : ℕ) : ApiResult × ℕ :=
  callApiGo resp maxRetries maxRetries 0

/-! ## `AgenticOrchestrator` (src/python_agent/agentic_orchestrator.py)

The Anthropic completion service is an external collaborator; one run of the
loop is driven by a schedule `service : ℕ → ModelResponse` giving the
response to the call made on each zero-based iteration (the transcript the
real client accumulates influences only the external model, not the loop's
control flow, so it is abstracted into the schedule). `json.loads` is
likewise external and enters as an explicit parser parameter. -/

/-- JSON values (the shape `json.loads` can return). -/
inductive Json
  | null
  | bool (b : Bool)
  | num (n : ℤ)
  | str (s : PyStr)
  | arr (items : List Json)
  | obj (fields : List (PyStr × Json))

/-- A content block of a model response. -/
inductive ContentBlock
  | text (t : PyStr)
  | toolUse (id : String) (toolName : String) (input : Json)

/-- The `stop_reason` of a model response. -/
inductive StopReason
  | endTurn
  | toolUse
  | other (s : String)
deriving DecidableEq

/-- A completion-service response: its stop reason and content blocks. -/
structure ModelResponse where
  stopReason : StopReason
  content : List ContentBlock

/-- The machine-readable fields of the dictionaries `run_agentic_loop` and
`_extract_final_answer` return. `results = some l` models a `"results": l`
key; interpolated diagnostic text is reduced to the fixed part of the
message. -/
structure LoopResult where
  status : String
  error : Option String := none
  results : Option (List Json) := none
  rawResponse : Option PyStr := none

/-- Python `s.find(sub, start)` restricted to a successful search: the least
index `i ≥ start` where `sub` occurs in `s`, if any. -/
def firstIndexFrom (sub : PyStr) (s : PyStr) (start : ℕ) : Option ℕ :=
  (List.range (s.length + 1)).find? (fun i => decide (start ≤ i) && sub.isPrefixOf (s.drop i))

/-- Python slice `s[a:b]` where `b` may be negative (the code produces
`b = -1` when the closing fence is missing and `str.find` returns `-1`). -/
def pySliceIE (s : PyStr) (a : ℕ) (b : ℤ) : PyStr :=
  let e : ℕ := if b < 0 then s.length - b.natAbs else min b.toNat s.length
  (s.take e).drop a

/-- The payload-selection logic of `_extract_final_answer` (lines 203-214):
the stripped text between the first ```` ```json ```` fence and the next
```` ``` ````, else between the first ```` ``` ```` fence and the next one,
else the whole text stripped. `"x" in text` and `text.find("x")` agree on
success, so containment checks are modelled by the same search. -/
def selectPayload (t : PyStr) : PyStr :=
  match firstIndexFrom ("```json".toList) t 0 with
  | some i =>
    let s := i + 7
    let e : ℤ := match firstIndexFrom ("```".toList) t s with
      | some j => (j : ℤ)
      | none => -1
    pyStrip (pySliceIE t s e)
  | none =>
    match firstIndexFrom ("```".toList) t 0 with
    | some i =>
      let s := i + 3
      let e : ℤ := match firstIndexFrom ("```".toList) t s with
        | some j => (j : ℤ)
        | none => -1
      pyStrip (pySliceIE t s e)
    | none => pyStrip t

/-- The body run for a `text` block (lines 201-238): parse the selected
payload; an array is a success carrying exactly that array, any other parsed
value or a parse failure is an error carrying the block's raw text. -/
def extractFromText (loads : PyStr → Option Json) (t : PyStr) : LoopResult :=
  match loads (selectPayload t) with
  | some (.arr rs) => { status := "success", results := some rs }
  | some _ => { status := "error", error := some "Results not in expected format", rawResponse := some t }
  | none => { status := "error", error := some "JSON parse error", rawResponse := some t }

/-- `_extract_final_answer` (lines 195-244): the first `text` block decides
(every branch inside the loop body returns); with no text block at all the
fall-through error is returned. -/
def extract_final_answer (loads : PyStr → Option Json) : List ContentBlock → LoopResult
  | [] => { status := "error", error := some "No text content in response", results := some [] }
  | .text t :: _ => extractFromText loads t
  | .toolUse _ _ _ :: rest => extract_final_answer loads rest

/-- Body of the `for iteration in range(max_iterations)` loop (lines
118-185); `fuel` is the number of remaining iterations, `iter` the number of
completion calls already made; the returned `ℕ` is the total number of
completion calls. Running out of fuel is the fall-through after the loop
(lines 187-193), returning the `incomplete` result. `end_turn` returns the
extracted final answer, any other stop reason returns the `error` result. -/
def runLoopGo (loads : PyStr → Option Json) (service : ℕ → ModelResponse) :
    ℕ → ℕ → LoopResult × ℕ
  | 0, iter => ({ status := "incomplete", error := some "Max iterations reached", results := some [] }, iter)
  | fuel + 1, iter =>
    let r := service iter
    match r.stopReason with
    | .endTurn => (extract_final_answer loads r.content, iter + 1)
    | .toolUse => runLoopGo loads service fuel (iter + 1)
    | .other _ => ({ status := "error", error := some "Unexpected stop reason", results := some [] }, iter + 1)

/-- `run_agentic_loop` (agentic_orchestrator.py lines 78-193), as a function
of the parser, the completion-service schedule and `max_iterations`. -/
def run_agentic_loop (loads : PyStr → Option Json) (service : ℕ → ModelResponse)
    (maxIterations : ℕ) : LoopResult × ℕ :=
  runLoopGo loads service maxIterations 0

/-- A concrete stand-in parser used to exercise the extraction theorems on
closed inputs. -/
def loadsStub (s : PyStr) : Option Json :=
  if s = "[1, 2]".toList then some (.arr [.num 1, .num 2])
  else if s = "{}".toList then some (.obj [])
  else none

/-! ## `normalize_product_name` and the `endoflife_lookup` guards
(endoflife_lookup.py, lines 11-101 and 212-242) -/

/-- The `PRODUCT_MAP` dictionary (lines 11-85), in insertion order; its keys
are pairwise distinct, so dictionary and association-list lookup agree. -/
def PRODUCT_MAP : List (String × String) := [
  ("PostgreSQL", "postgresql"),
  ("MySQL", "mysql"),
  ("MariaDB", "mariadb"),
  ("SQL Server", "mssql"),
  ("Microsoft SQL Server", "mssql"),
  ("Oracle Database", "oracle-database"),
  ("Oracle", "oracle-database"),
  ("MongoDB", "mongodb"),
  ("Redis", "redis"),
  ("Elasticsearch", "elasticsearch"),
  ("CockroachDB", "cockroachdb"),
  ("Couchbase Server", "couchbase-server"),
  ("Apache Cassandra", "cassandra"),
  ("Cassandra", "cassandra"),
  ("Microsoft Access", "microsoft-access"),
  ("Access", "microsoft-access"),
  ("DB2", "ibm-db2"),
  ("IBM DB2", "ibm-db2"),
  ("Informix", "ibm-informix"),
  ("Sybase", "sap-ase"),
  ("SAP ASE", "sap-ase"),
  ("Neo4j", "neo4j"),
  ("InfluxDB", "influxdb"),
  ("TimescaleDB", "timescaledb"),
  ("Amazon RDS", "amazon-rds"),
  ("Amazon Aurora", "amazon-aurora"),
  ("Google Cloud SQL", "google-cloud-sql"),
  ("Azure SQL", "azure-sql-database"),
  ("Apache Kafka", "apache-kafka"),
  ("Kafka", "apache-kafka"),
  ("RabbitMQ", "rabbitmq"),
  ("ActiveMQ", "activemq"),
  ("Apache ActiveMQ", "activemq"),
  ("Amazon MQ", "amazon-mq"),
  ("Splunk", "splunk"),
  ("Apache Solr", "solr"),
  ("Solr", "solr"),
  ("Logstash", "logstash"),
  ("Kibana", "kibana"),
  ("Memcached", "memcached"),
  ("Etcd", "etcd"),
  ("Consul", "consul"),
  ("Apache ZooKeeper", "zookeeper"),
  ("ZooKeeper", "zookeeper"),
  ("Couchbase", "couchbase-server"),
  ("CouchDB", "couchdb"),
  ("Apache CouchDB", "couchdb"),
  ("ArangoDB", "arangodb"),
  ("OrientDB", "orientdb"),
  ("Prometheus", "prometheus"),
  ("Grafana", "grafana"),
  ("HBase", "hbase"),
  ("Apache HBase", "hbase"),
  ("ScyllaDB", "scylladb"),
  ("VoltDB", "voltdb"),
  ("NuoDB", "nuodb")]

/-- `PRODUCT_MAP[k]` guarded by `k in PRODUCT_MAP`. -/
def lookupMap (k : String) : Option String :=
  (PRODUCT_MAP.find? (fun p => p.1 == k)).map Prod.snd

/-- Does the string end in one of `Database|Server|DB`, case-insensitively?
(the word is followed directly by the `$` anchor, so it must be the entire
remainder). -/
def dbWordEnd (l : PyStr) : Bool :=
  pyLower l == "database".toList || pyLower l == "server".toList || pyLower l == "db".toList

/-- Does `\s+(Database|Server|DB)$` match at the head of the string? -/
def wsThenDbEnd : PyStr → Bool
  | [] => false
  | c :: rest => isWs c && (dbWordEnd rest || wsThenDbEnd rest)

/-- `re.sub(r'\s+(Database|Server|DB)$', '', product, flags=re.IGNORECASE)`:
delete from the leftmost position where whitespace followed by a trailing
`Database`/`Server`/`DB` begins (the match always extends to the end). -/
def stripDbAux : PyStr → PyStr
  | [] => []
  | c :: rest => if wsThenDbEnd (c :: rest) then [] else c :: stripDbAux rest

/-- `normalize_product_name` (endoflife_lookup.py lines 88-101): exact
dictionary hit, then first case-insensitive key match in insertion order,
then a dictionary hit after stripping a trailing `Database`/`Server`/`DB`
qualifier, and finally the raw name lower-cased with spaces hyphenated.
Despite the `Optional[str]` annotation, no branch returns `None`, so the
embedding returns `String`. -/
def normalize_product_name (product : String) : String :=
  match lookupMap product with
  | some v => v
  | none =>
    match PRODUCT_MAP.find? (fun p => pyLower p.1.toList == pyLower product.toList) with
    | some p => p.2
    | none =>
      let cleaned := String.mk (stripDbAux product.toList)
      match (if cleaned ≠ product then lookupMap cleaned else none) with
      | some v => v
      | none => String.mk ((pyLower product.toList).map (fun c => if c = ' ' then '-' else c))

/-- The input-validation prefix of `endoflife_lookup` (lines 214-242),
up to the point where the API is called: which guard fires, or the
normalized product identifier and version that the lookup proceeds with.
Python truthiness of a string is emptiness. -/
inductive LookupPre
  | invalidProduct
  | invalidVersion
  | productNotFound
  | proceed (apiProduct : String) (normVersion : PyStr)
deriving DecidableEq

/-- Lines 214-242 of `endoflife_lookup`: the two `INVALID_INPUT` guards, the
`PRODUCT_NOT_FOUND` guard on a falsy `api_product`, then the call with the
normalized product and version. -/
def endoflife_lookup_pre (product : String) (version : String) : LookupPre :=
  if product = "" then .invalidProduct
  else if version = "" then .invalidVersion
  else
    let apiProduct := normalize_product_name product
    if apiProduct = "" then .productNotFound
    else .proceed apiProduct (normalize_version version.toList)

/-! ## Lemmas about the retry loop and the agentic loop -/

/-- On an all-timeout schedule, every iteration of the retry loop with at
least one iteration left hits the `except requests.Timeout` arm; the last
iteration returns the `TIMEOUT` error carrying `retry_count = max_retries`,
after `max_retries` requests in total. -/
theorem callApiGo_timeout (resp : ℕ → HttpEvent) (m : ℕ) (h : ∀ i, resp i = .timeout) :
    ∀ fuel attempt, fuel + attempt = m → 1 ≤ fuel →
      callApiGo resp m fuel attempt
        = ({ status := "error", errorType := some "TIMEOUT", retryCount := some m }, m) := by
  intro fuel
  induction fuel with
  | zero => intro attempt _ h1; omega
  | succ f ih =>
    intro attempt hsum _
    by_cases hlt : attempt < m - 1
    · have hf : 1 ≤ f := by omega
      simp only [callApiGo, h attempt, if_pos hlt]
      exact ih (attempt + 1) (by omega) hf
    · have hf : f = 0 := by omega
      subst hf
      simp only [callApiGo, h attempt, if_neg hlt]
      have hm : attempt + 1 = m := by omega
      rw [hm]

/-- On an all-429 schedule every loop iteration issues a request and
`continue`s, so the loop falls through after `fuel` further requests and
returns the `MAX_RETRIES` error, which carries no `retry_count` field. -/
theorem callApiGo_429 (resp : ℕ → HttpEvent) (m : ℕ) (h : ∀ i, resp i = .status 429) :
    ∀ fuel attempt,
      callApiGo resp m fuel attempt
        = ({ status := "error", errorType := some "MAX_RETRIES" }, fuel + attempt) := by
  intro fuel
  induction fuel with
  | zero => intro attempt; simp [callApiGo]
  | succ f ih =>
    intro attempt
    simp only [callApiGo, h attempt]
    rw [ih (attempt + 1)]
    have : f + (attempt + 1) = f + 1 + attempt := by omega
    rw [this]

/-- On an all-tool-use schedule every loop iteration takes the `tool_use`
branch and continues, so the loop falls through after `fuel` further
completion calls and returns the `incomplete` result. -/
theorem runLoopGo_toolUse (loads : PyStr → Option Json) (service : ℕ → ModelResponse)
    (h : ∀ i, (service i).stopReason = .toolUse) :
    ∀ fuel iter,
      runLoopGo loads service fuel iter
        = ({ status := "incomplete", error := some "Max iterations reached",
             results := some [] }, fuel + iter) := by
  intro fuel
  induction fuel with
  | zero => intro iter; simp [runLoopGo]
  | succ f ih =>
    intro iter
    simp only [runLoopGo, h iter]
    rw [ih (iter + 1)]
    have : f + (iter + 1) = f + 1 + iter := by omega
    rw [this]

/-! ## Claim C3 -/

/-- C3, counterexample: with `max_retries = 2` and every attempt answered
with a rate-limit 429, the function issues 2 requests and then returns the
`MAX_RETRIES` error — not a `TIMEOUT`-classified result — and the result
carries no `retry_count` field (`retryCount = none`), contradicting the
claim that every transient-failure path exhausting the attempt cap yields a
`TIMEOUT` result with `retry_count = max_attempts`. -/
theorem call_api_429_not_timeout :
    call_endoflife_api (fun _ => .status 429) 2
      = ({ status := "error", errorType := some "MAX_RETRIES", retryCount := none }, 2) := by
  decide

/-- C3, amended: for every `max_attempts ≥ 1`, if every attempt times out
the function makes exactly `max_attempts` requests and returns the terminal
`TIMEOUT` error whose `retry_count` equals `max_attempts`; a schedule of
repeated rate-limit 429 responses also makes exactly `max_attempts` requests
but terminates with the `MAX_RETRIES` error, which carries no
`retry_count` field. -/
theorem call_api_exhaustion (resp : ℕ → HttpEvent) (m : ℕ) (hm : 1 ≤ m) :
    ((∀ i, resp i = .timeout) →
      call_endoflife_api resp m
        = ({ status := "error", errorType := some "TIMEOUT", retryCount := some m }, m)) ∧
    ((∀ i, resp i = .status 429) →
      call_endoflife_api resp m
        = ({ status := "error", errorType := some "MAX_RETRIES", retryCount := none }, m)) := by
  constructor
  · intro h
    exact callApiGo_timeout resp m h m 0 (by omega) hm
  · intro h
    have := callApiGo_429 resp m h m 0
    simpa using this

/-- C3, witness: the amended theorem applied to the all-timeout and the
all-429 schedules with `max_attempts = 3`. -/
theorem call_api_exhaustion_witness :
    call_endoflife_api (fun _ => .timeout) 3
      = ({ status := "error", errorType := some "TIMEOUT", retryCount := some 3 }, 3) ∧
    call_endoflife_api (fun _ => .status 429) 3
      = ({ status := "error", errorType := some "MAX_RETRIES", retryCount := none }, 3) :=
  ⟨(call_api_exhaustion (fun _ => .timeout) 3 (by decide)).1 (fun _ => rfl),
   (call_api_exhaustion (fun _ => .status 429) 3 (by decide)).2 (fun _ => rfl)⟩

/-! ## Claim C7 -/

/-- C7: when the first request is answered 404, the lookup makes exactly one
request — regardless of the remaining attempt budget — and returns the
`not_found` / `PRODUCT_NOT_FOUND` outcome, whose status is distinct from the
`"error"` status of the transport-failure outcomes. -/
theorem call_api_404_single_attempt (resp : ℕ → HttpEvent) (m : ℕ) (hm : 1 ≤ m)
    (h : resp 0 = .status 404) :
    call_endoflife_api resp m
      = ({ status := "not_found", errorType := some "PRODUCT_NOT_FOUND" }, 1) ∧
    (call_endoflife_api resp m).1.status ≠ "error" := by
  obtain ⟨f, rfl⟩ : ∃ f, m = f + 1 := ⟨m - 1, by omega⟩
  have : call_endoflife_api resp (f + 1)
      = ({ status := "not_found", errorType := some "PRODUCT_NOT_FOUND" }, 1) := by
    simp only [call_endoflife_api, callApiGo, h]
  exact ⟨this, by rw [this]; decide⟩

/-- C7, witness: the theorem applied to the constant-404 schedule with a
budget of 3 attempts. -/
theorem call_api_404_witness :
    call_endoflife_api (fun _ => .status 404) 3
      = ({ status := "not_found", errorType := some "PRODUCT_NOT_FOUND" }, 1) :=
  (call_api_404_single_attempt (fun _ => .status 404) 3 (by decide) rfl).1

/-! ## Claim C4 -/

/-- C4: for every `max_iterations ≥ 1`, against a completion service that
answers every call with a tool-use request the agentic loop performs exactly
`max_iterations` iterations — the returned call count equals the budget, so
it never terminates earlier — and returns the `incomplete` terminal result. -/
theorem run_agentic_loop_incomplete (loads : PyStr → Option Json)
    (service : ℕ → ModelResponse) (m : ℕ) (_hm : 1 ≤ m)
    (h : ∀ i, (service i).stopReason = .toolUse) :
    run_agentic_loop loads service m
      = ({ status := "incomplete", error := some "Max iterations reached",
           results := some [] }, m) := by
  have := runLoopGo_toolUse loads service h m 0
  simpa using this

/-- C4, witness: the theorem applied to a stub service that always requests
tools, with a budget of 5 iterations. -/
theorem run_agentic_loop_incomplete_witness :
    run_agentic_loop (fun _ => none) (fun _ => { stopReason := .toolUse, content := [] }) 5
      = ({ status := "incomplete", error := some "Max iterations reached",
           results := some [] }, 5) :=
  run_agentic_loop_incomplete (fun _ => none)
    (fun _ => { stopReason := .toolUse, content := [] }) 5 (by decide) (fun _ => rfl)

/-! ## Claim C5 -/

/-- If the three-backtick fence does not occur in `t`, neither does the
```` ```json ```` fence. -/
theorem firstIndexFrom_json_none (t : PyStr)
    (h : firstIndexFrom ("```".toList) t 0 = none) :
    firstIndexFrom ("```json".toList) t 0 = none := by
  unfold firstIndexFrom at h ⊢
  rw [ List.find?_eq_none] at h ⊢
  intro i hi
  have h3 := h i hi
  simp only [Bool.and_eq_true, decide_eq_true_eq] at h3 ⊢
  intro hc
  apply h3
  refine ⟨hc.1, ?_⟩
  have hpre := hc.2
  rw [ List.isPrefixOf_iff_prefix] at hpre ⊢
  have hbase : ("```".toList : PyStr) <+: "```json".toList :=
    List.isPrefixOf_iff_prefix.mp (by decide)
  exact hbase.trans hpre

/-- C5: final-answer extraction applied to a terminal model text `t`. The
payload is selected by the priority encoded in `selectPayload` (first
```` ```json ```` fence, else first ```` ``` ```` fence, else — as the last
conjunct states — the whole stripped text); if the parser fails on the
payload the result is an error carrying the raw text `t` verbatim; if it
returns a non-array value the result is likewise an error carrying `t`; and
if the selected fenced payload parses as a JSON array the result is a
success carrying exactly that array. -/
theorem extract_final_answer_spec (loads : PyStr → Option Json) (t : PyStr) :
    (∀ rs, loads (selectPayload t) = some (.arr rs) →
      extract_final_answer loads [.text t] = { status := "success", results := some rs }) ∧
    (loads (selectPayload t) = none →
      extract_final_answer loads [.text t]
        = { status := "error", error := some "JSON parse error", rawResponse := some t }) ∧
    (∀ j, loads (selectPayload t) = some j → (∀ rs, j ≠ .arr rs) →
      extract_final_answer loads [.text t]
        = { status := "error", error := some "Results not in expected format",
            rawResponse := some t }) ∧
    (firstIndexFrom ("```".toList) t 0 = none → selectPayload t = pyStrip t) := by
  refine ⟨?_, ?_, ?_, ?_⟩
  · intro rs h
    simp [extract_final_answer, extractFromText, h]
  · intro h
    simp [extract_final_answer, extractFromText, h]
  · intro j h hna
    cases j with
    | arr rs => exact absurd rfl (hna rs)
    | null => simp [extract_final_answer, extractFromText, h]
    | bool b => simp [extract_final_answer, extractFromText, h]
    | num n => simp [extract_final_answer, extractFromText, h]
    | str s => simp [extract_final_answer, extractFromText, h]
    | obj fs => simp [extract_final_answer, extractFromText, h]
  · intro h
    have hj := firstIndexFrom_json_none t h
    unfold selectPayload
    rw [hj, h]

/-- C5, witness: the theorem applied with the stand-in parser to a text with
a ```` ```json ```` fence holding an array, to malformed text, and to a text
whose fenced payload is a non-array value. -/
theorem extract_final_answer_spec_witness :
    extract_final_answer loadsStub [.text ("ok\n```json\n[1, 2]\n```\n".toList)]
      = { status := "success", results := some [.num 1, .num 2] } ∧
    extract_final_answer loadsStub [.text ("garbage".toList)]
      = { status := "error", error := some "JSON parse error",
          rawResponse := some ("garbage".toList) } ∧
    extract_final_answer loadsStub [.text ("```\n{}\n```".toList)]
      = { status := "error", error := some "Results not in expected format",
          rawResponse := some ("```\n{}\n```".toList) } :=
  ⟨(extract_final_answer_spec loadsStub _).1 [.num 1, .num 2] rfl,
   (extract_final_answer_spec loadsStub _).2.1 rfl,
   (extract_final_answer_spec loadsStub _).2.2.1 (.obj []) rfl (fun _ h => nomatch h)⟩

/-! ## Claim C10 -/

/-- Every value stored in the product map is a non-empty identifier. -/
theorem product_map_values_ne_empty : ∀ pr ∈ PRODUCT_MAP, pr.2 ≠ "" := by decide

/-- A successful dictionary hit returns one of the map's values. -/
theorem lookupMap_ne_empty (k : String) (v : String) (h : lookupMap k = some v) : v ≠ "" := by
  unfold lookupMap at h
  rcases Option.map_eq_some'.mp h with ⟨pr, hfind, rfl⟩
  exact product_map_values_ne_empty pr (List.mem_of_find?_eq_some hfind)

/-- A non-empty string stays non-empty under `lower().replace(' ', '-')`. -/
theorem lowerHyphen_ne_nil (l : PyStr) (h : l ≠ []) :
    (pyLower l).map (fun c => if c = ' ' then '-' else c) ≠ [] := by
  intro hc
  apply h
  have := List.map_eq_nil_iff.mp hc
  exact List.map_eq_nil_iff.mp this

/-- The non-empty-result fact behind claim C10, as a standalone lemma. -/
theorem normalize_product_ne_empty (p : String) (hp : p ≠ "") :
    normalize_product_name p ≠ "" := by
  unfold normalize_product_name
  have hdata : p.toList ≠ [] := by
    intro hc
    apply hp
    cases p with
    | mk l => cases hc; rfl
  cases h1 : lookupMap p with
  | some v => exact lookupMap_ne_empty p v h1
  | none =>
    cases h2 : PRODUCT_MAP.find? (fun pr => pyLower pr.1.toList == pyLower p.toList) with
    | some pr =>
      simp only []
      exact product_map_values_ne_empty pr (List.mem_of_find?_eq_some h2)
    | none =>
      simp only []
      cases h3 : (if String.mk (stripDbAux p.toList) ≠ p
          then lookupMap (String.mk (stripDbAux p.toList)) else none) with
      | some v =>
        by_cases hc : String.mk (stripDbAux p.toList) ≠ p
        · rw [if_pos hc] at h3
          exact lookupMap_ne_empty _ v h3
        · rw [if_neg hc] at h3
          exact absurd h3 (by simp)
      | none =>
        intro hc
        have : ((pyLower p.toList).map (fun c => if c = ' ' then '-' else c)) = [] := by
          have := congrArg String.toList hc
          exact this
        exact lowerHyphen_ne_nil p.toList hdata this

/-- C10: for every non-empty product string the mapping returns a non-empty
identifier (the final fallback lower-cases and hyphenates the raw name), so
the `PRODUCT_NOT_FOUND` guard of `endoflife_lookup` that fires on a falsy
mapped identifier can never be reached: once the non-empty-product guard has
passed, the pre-processing either rejects an empty version or proceeds. -/
theorem normalize_product_name_total :
    (∀ p : String, p ≠ "" → normalize_product_name p ≠ "") ∧
    (∀ p v : String, endoflife_lookup_pre p v ≠ .productNotFound) := by
  refine ⟨fun p hp => normalize_product_ne_empty p hp, ?_⟩
  intro p v
  unfold endoflife_lookup_pre
  by_cases hp : p = ""
  · rw [if_pos hp]; decide
  · rw [if_neg hp]
    by_cases hv : v = ""
    · rw [if_pos hv]; decide
    · rw [if_neg hv, if_neg (normalize_product_ne_empty p hp)]
      exact fun h => LookupPre.noConfusion h

/-- C10, witness: the theorem applied to a mapped name, an unmapped name and
a concrete guard evaluation. -/
theorem normalize_product_name_total_witness :
    normalize_product_name "ScyllaDB" ≠ "" ∧
    normalize_product_name "Great Unknown Store" ≠ "" ∧
    endoflife_lookup_pre "Great Unknown Store" "1.2" ≠ .productNotFound :=
  ⟨normalize_product_name_total.1 "ScyllaDB" (by decide),
   normalize_product_name_total.1 "Great Unknown Store" (by decide),
   normalize_product_name_total.2 "Great Unknown Store" "1.2"⟩

/-! ## Claims C6 and C8 -/

/-- On a non-empty candidate list every branch of `find_closest_version`
returns a present matched value together with one of the four positive match
kinds. -/
theorem find_closest_shape (t : PyStr) (avail : List PyStr) (h : avail ≠ []) :
    ∃ v, (find_closest_version t avail).1 = some v ∧
      (find_closest_version t avail).2
        ∈ (["EXACT", "MAJOR", "CLOSEST", "LATEST"] : List String) := by
  unfold find_closest_version
  rw [if_neg h]
  by_cases h2 : t ∈ avail
  · rw [if_pos h2]; exact ⟨t, rfl, by simp⟩
  · rw [if_neg h2]
    cases h3 : avail.find? (isMajorMatch ((splitDot t).headI)) with
    | some v => exact ⟨v, rfl, by simp⟩
    | none =>
      cases h4 : versionCents t with
      | none => exact ⟨avail.headI, rfl, by show "LATEST" ∈ _; decide⟩
      | some tf =>
        cases h5 : candFloats avail with
        | none => exact ⟨avail.headI, rfl, by show "LATEST" ∈ _; decide⟩
        | some vfs =>
          cases vfs with
          | nil => exact ⟨avail.headI, rfl, by show "LATEST" ∈ _; decide⟩
          | cons x xs =>
            exact ⟨(foldBest tf x xs).1, rfl, by show "CLOSEST" ∈ _; decide⟩

/-- C6: the match kind is a total ranking. A verbatim hit returns `EXACT`
even when the `MAJOR` and `CLOSEST` rules would also apply; otherwise the
first candidate in list order equal to the target's major component or
starting with it plus a dot is returned as `MAJOR`; and a present matched
value always comes with one of the positive match kinds, never with
`NOT_FOUND`. -/
theorem find_closest_ranking (t : PyStr) (avail : List PyStr) :
    (t ∈ avail → find_closest_version t avail = (some t, "EXACT")) ∧
    (t ∉ avail → ∀ v, avail.find? (isMajorMatch ((splitDot t).headI)) = some v →
      find_closest_version t avail = (some v, "MAJOR")) ∧
    ((find_closest_version t avail).1.isSome →
      (find_closest_version t avail).2 ≠ "NOT_FOUND" ∧
      (find_closest_version t avail).2
        ∈ (["EXACT", "MAJOR", "CLOSEST", "LATEST"] : List String)) := by
  refine ⟨?_, ?_, ?_⟩
  · intro h2
    have h : avail ≠ [] := List.ne_nil_of_mem h2
    unfold find_closest_version
    rw [if_neg h, if_pos h2]
  · intro hnot v hf
    have h : avail ≠ [] := List.ne_nil_of_mem (List.mem_of_find?_eq_some hf)
    unfold find_closest_version
    rw [if_neg h, if_neg hnot, hf]
  · intro hsome
    by_cases h : avail = []
    · subst h
      simp [find_closest_version] at hsome
    · obtain ⟨v, h1, h2⟩ := find_closest_shape t avail h
      refine ⟨?_, h2⟩
      simp only [List.mem_cons, List.not_mem_nil, or_false] at h2
      rcases h2 with h2 | h2 | h2 | h2 <;> rw [h2] <;> decide

/-- C6, witness: the theorem's EXACT part on a verbatim hit that also has a
major-prefix competitor earlier in the list, and its MAJOR part on a
first-in-list-order major match. -/
theorem find_closest_ranking_witness :
    find_closest_version ("14".toList) ["14.1".toList, "14".toList]
      = (some ("14".toList), "EXACT") ∧
    find_closest_version ("14.6".toList) ["13".toList, "14".toList, "14.2".toList]
      = (some ("14".toList), "MAJOR") :=
  ⟨(find_closest_ranking ("14".toList) ["14.1".toList, "14".toList]).1 (by decide),
   (find_closest_ranking ("14.6".toList) ["13".toList, "14".toList, "14.2".toList]).2.1
     (by decide) ("14".toList) (by decide)⟩

/-- C8: the resolver is total — on the empty candidate list it returns the
`NOT_FOUND` sentinel with no matched value, and on any non-empty list it
returns a present matched value tagged with one of the `EXACT`, `MAJOR`,
`CLOSEST` or `LATEST` kinds; every failure mode is one of the sentinels, no
branch is exceptional. -/
theorem find_closest_total (t : PyStr) (avail : List PyStr) :
    find_closest_version t [] = (none, "NOT_FOUND") ∧
    (avail = [] → find_closest_version t avail = (none, "NOT_FOUND")) ∧
    (avail ≠ [] → ∃ v, (find_closest_version t avail).1 = some v ∧
      (find_closest_version t avail).2
        ∈ (["EXACT", "MAJOR", "CLOSEST", "LATEST"] : List String)) :=
  ⟨rfl, fun h => by subst h; rfl, fun h => find_closest_shape t avail h⟩

/-- C8, witness: the theorem applied on the empty list and on a singleton
list. -/
theorem find_closest_total_witness :
    find_closest_version ("9.9".toList) [] = (none, "NOT_FOUND") ∧
    ∃ v, (find_closest_version ("9.9".toList) ["10".toList]).1 = some v := by
  refine ⟨(find_closest_total ("9.9".toList) []).1, ?_⟩
  obtain ⟨v, h1, _⟩ := (find_closest_total ("9.9".toList) ["10".toList]).2.2 (by decide)
  exact ⟨v, h1⟩

/-! ## Claim C2 -/

/-- The fold of Python's `min` returns the accumulator or one of the folded
elements. -/
theorem foldBest_mem (tf : ℤ) (ys : List (PyStr × ℤ)) :
    ∀ b, foldBest tf b ys = b ∨ foldBest tf b ys ∈ ys := by
  induction ys with
  | nil => intro b; exact Or.inl rfl
  | cons y ys ih =>
    intro b
    have hstep : foldBest tf b (y :: ys)
        = foldBest tf (if |y.2 - tf| < |b.2 - tf| then y else b) ys := rfl
    by_cases hy : |y.2 - tf| < |b.2 - tf|
    · rw [hstep, if_pos hy]
      rcases ih y with h | h
      · exact Or.inr (by rw [h]; exact List.mem_cons_self y ys)
      · exact Or.inr (List.mem_cons_of_mem y h)
    · rw [hstep, if_neg hy]
      rcases ih b with h | h
      · exact Or.inl h
      · exact Or.inr (List.mem_cons_of_mem y h)

/-- A successful conversion of the candidate list yields one value per
candidate. -/
theorem candFloats_length : ∀ (l : List PyStr) (vfs : List (PyStr × ℤ)),
    candFloats l = some vfs → vfs.length = l.length := by
  intro l
  induction l with
  | nil =>
    intro vfs h
    simp only [candFloats, Option.some_inj] at h
    rw [← h]
    rfl
  | cons v vs ih =>
    intro vfs h
    simp only [candFloats, Option.bind_eq_bind, Option.bind_eq_some, Option.pure_def,
      Option.some_inj] at h
    obtain ⟨f, hf, rest, hrest, hcons⟩ := h
    rw [← hcons]
    simp [ih rest hrest]

/-- Every pair in a successful conversion carries one of the candidates. -/
theorem candFloats_mem : ∀ (l : List PyStr) (vfs : List (PyStr × ℤ)),
    candFloats l = some vfs → ∀ p ∈ vfs, p.1 ∈ l := by
  intro l
  induction l with
  | nil =>
    intro vfs h p hp
    simp only [candFloats, Option.some_inj] at h
    rw [← h] at hp
    simp at hp
  | cons v vs ih =>
    intro vfs h p hp
    simp only [candFloats, Option.bind_eq_bind, Option.bind_eq_some, Option.pure_def,
      Option.some_inj] at h
    obtain ⟨f, hf, rest, hrest, hcons⟩ := h
    rw [← hcons] at hp
    rcases List.mem_cons.mp hp with rfl | hp2
    · exact List.mem_cons_self v vs
    · exact List.mem_cons_of_mem v (ih rest hrest p hp2)

/-- C2, counterexample: the target `"1.2"` has numeric first and second
components (`versionCents` succeeds with 1.02, i.e. 102 hundredths), the
candidate list `["abc"]` is non-empty with no EXACT and no MAJOR match, yet
the function returns the first candidate tagged `LATEST`, not a `CLOSEST`
match — numeric interpretation failed for a candidate, not for the target. -/
theorem find_closest_latest_on_numeric_target :
    find_closest_version ("1.2".toList) ["abc".toList] = (some ("abc".toList), "LATEST") ∧
    versionCents ("1.2".toList) = some 102 := by decide

/-- C2, amended: with no EXACT and no MAJOR match, when the target and every
candidate convert, the result is one of the candidates tagged `CLOSEST`; the
`LATEST` fallback returning the first candidate fires when numeric
interpretation fails for the target or for any candidate (never raising
either way). Which candidate the `CLOSEST` branch picks is decided by the
program by minimizing the absolute difference in IEEE binary64 arithmetic,
whose rounding can strictly resolve exact decimal ties (target `"1.62"` with
candidates `["01.38", "01.86"]` returns `"01.86"`), so no exact-arithmetic
minimality or list-order tie-break is asserted. -/
theorem find_closest_numeric_branch (t : PyStr) (avail : List PyStr)
    (hne : avail ≠ []) (hnex : t ∉ avail)
    (hnomaj : avail.find? (isMajorMatch ((splitDot t).headI)) = none) :
    (∀ tf vfs, versionCents t = some tf → candFloats avail = some vfs →
      ∃ c, find_closest_version t avail = (some c, "CLOSEST") ∧ c ∈ avail) ∧
    (versionCents t = none →
      find_closest_version t avail = (some avail.headI, "LATEST")) ∧
    (∀ tf, versionCents t = some tf → candFloats avail = none →
      find_closest_version t avail = (some avail.headI, "LATEST")) := by
  refine ⟨?_, ?_, ?_⟩
  · intro tf vfs htf hvfs
    have hlen := candFloats_length avail vfs hvfs
    cases vfs with
    | nil =>
      exfalso
      apply hne
      cases avail with
      | nil => rfl
      | cons a as => exact absurd hlen (by simp)
    | cons x xs =>
      refine ⟨(foldBest tf x xs).1, ?_, ?_⟩
      · unfold find_closest_version
        rw [if_neg hne, if_neg hnex, hnomaj, htf, hvfs]
        rfl
      · apply candFloats_mem avail (x :: xs) hvfs
        rcases foldBest_mem tf xs x with h | h
        · rw [h]
          exact List.mem_cons_self x xs
        · exact List.mem_cons_of_mem x h
  · intro htf
    unfold find_closest_version
    rw [if_neg hne, if_neg hnex, hnomaj, htf]
  · intro tf htf hvfs
    unfold find_closest_version
    rw [if_neg hne, if_neg hnex, hnomaj, htf, hvfs]

/-- C2, witness: the amended theorem's CLOSEST part on the specification's
own example `resolve("9.9", ["10","12","14"])`, and its LATEST part on a
numeric target with a non-numeric candidate. -/
theorem find_closest_numeric_branch_witness :
    (find_closest_version ("9.9".toList) ["10".toList, "12".toList, "14".toList]).2
      = "CLOSEST" ∧
    find_closest_version ("15".toList) ["abc".toList] = (some ("abc".toList), "LATEST") := by
  constructor
  · obtain ⟨c, h1, _⟩ :=
      (find_closest_numeric_branch ("9.9".toList)
          ["10".toList, "12".toList, "14".toList]
          (by decide) (by decide) (by decide)).1
        909 [("10".toList, 1000), ("12".toList, 1200), ("14".toList, 1400)]
        (by decide) (by decide)
    rw [h1]
  · exact (find_closest_numeric_branch ("15".toList) ["abc".toList]
      (by decide) (by decide) (by decide)).2.2 1500 (by decide) (by decide)

/-! ## Claim C9 -/

/-- Stripping is idempotent: a stripped string has no leading and no
trailing whitespace left. -/
theorem pyStrip_idem (s : PyStr) : pyStrip (pyStrip s) = pyStrip s := by
  unfold pyStrip rstrip lstrip
  have h1 : List.dropWhile isWs (List.rdropWhile isWs (List.dropWhile isWs s))
      = List.rdropWhile isWs (List.dropWhile isWs s) := by
    rcases hr : List.rdropWhile isWs (List.dropWhile isWs s) with _ | ⟨c, r⟩
    · rfl
    · obtain ⟨t, ht⟩ := List.rdropWhile_prefix isWs (List.dropWhile isWs s)
      rw [hr] at ht
      have hne : List.dropWhile isWs s ≠ [] := by
        rw [← ht]
        simp
      have h2 : (List.dropWhile isWs s).head? = some c := by
        rw [← ht]
        rfl
      have hhead := List.head_dropWhile_not isWs s hne
      have hc : isWs c = false := by
        rw [List.head?_eq_head hne] at h2
        rw [← Option.some_inj.mp h2]
        exact hhead
      simp [List.dropWhile_cons, hc]
  rw [h1, List.rdropWhile_idempotent]

/-- C9, counterexample: `normalize_version(" 1.2")` keeps its leading space
— the two-component branch rejoins the first two components without
stripping — so the result of normalization is not always trimmed of
surrounding whitespace. -/
theorem normalize_version_not_trimmed :
    normalize_version (" 1.2".toList) = " 1.2".toList ∧
    pyStrip (normalize_version (" 1.2".toList)) ≠ normalize_version (" 1.2".toList) := by
  decide

/-- C9, amended: normalization is a total function (no branch is
exceptional); the result is trimmed of surrounding whitespace whenever the
suffix-stripped string has at most one dot-separated component — in that
branch the result is exactly the stripped string's `strip()` — while in the
two-or-more-component branch the first two components are rejoined
unchanged, which can retain surrounding whitespace. -/
theorem normalize_version_trim (v : PyStr) :
    (¬ 1 < (splitDot (strippedStage v)).length →
      normalize_version v = pyStrip (strippedStage v) ∧
      pyStrip (normalize_version v) = normalize_version v) ∧
    (1 < (splitDot (strippedStage v)).length →
      normalize_version v = joinDot ((splitDot (strippedStage v)).take 2)) := by
  have hnv : normalize_version v = if 1 < (splitDot (strippedStage v)).length
      then joinDot ((splitDot (strippedStage v)).take 2)
      else pyStrip (strippedStage v) := rfl
  constructor
  · intro h
    rw [if_neg h] at hnv
    exact ⟨hnv, by rw [hnv]; exact pyStrip_idem _⟩
  · intro h
    rw [if_pos h] at hnv
    exact hnv

/-- C9, witness: the amended theorem applied to `"  7  "` (single component,
result trimmed) — the trimmedness equation evaluated on the concrete
result. -/
theorem normalize_version_trim_witness :
    normalize_version ("  7  ".toList) = pyStrip (strippedStage ("  7  ".toList)) ∧
    pyStrip (normalize_version ("  7  ".toList)) = normalize_version ("  7  ".toList) :=
  (normalize_version_trim ("  7  ".toList)).1 (by decide)

/-! ## Claim C1: split/join lemmas -/

/-- `str.split` never returns an empty list. -/
theorem splitDot_ne_nil (s : PyStr) : splitDot s ≠ [] := by
  induction s with
  | nil => simp [splitDot]
  | cons c rest ih =>
    simp only [splitDot]
    by_cases hc : c = '.'
    · rw [if_pos hc]; simp
    · rw [if_neg hc]
      cases h : splitDot rest with
      | nil => simp
      | cons p ps => simp

/-- Joining the components with `'.'` restores the split string. -/
theorem joinDot_splitDot (s : PyStr) : joinDot (splitDot s) = s := by
  induction s with
  | nil => rfl
  | cons c rest ih =>
    simp only [splitDot]
    by_cases hc : c = '.'
    · rw [if_pos hc]
      subst hc
      cases h : splitDot rest with
      | nil => exact absurd h (splitDot_ne_nil rest)
      | cons p ps =>
        rw [h] at ih
        show [] ++ '.' :: joinDot (p :: ps) = '.' :: rest
        simp [ih]
    · rw [if_neg hc]
      cases h : splitDot rest with
      | nil => exact absurd h (splitDot_ne_nil rest)
      | cons p ps =>
        rw [h] at ih
        cases ps with
        | nil =>
          show c :: p = c :: rest
          exact congrArg (c :: ·) ih
        | cons q qs =>
          show (c :: p) ++ '.' :: joinDot (q :: qs) = c :: rest
          rw [List.cons_append]
          exact congrArg (c :: ·) ih

/-- No component produced by the split contains the separator. -/
theorem splitDot_mem_no_dot (s : PyStr) : ∀ p ∈ splitDot s, '.' ∉ p := by
  induction s with
  | nil =>
    intro p hp
    simp only [splitDot, List.mem_singleton] at hp
    subst hp
    simp
  | cons c rest ih =>
    intro p hp
    simp only [splitDot] at hp
    by_cases hc : c = '.'
    · rw [if_pos hc] at hp
      rcases List.mem_cons.mp hp with rfl | hp2
      · simp
      · exact ih p hp2
    · rw [if_neg hc] at hp
      cases h : splitDot rest with
      | nil => exact absurd h (splitDot_ne_nil rest)
      | cons q qs =>
        rw [h] at hp
        rcases List.mem_cons.mp hp with rfl | hp2
        · intro hm
          rcases List.mem_cons.mp hm with hm1 | hm2
          · exact hc hm1.symm
          · exact ih q (by rw [h]; exact List.mem_cons_self q qs) hm2
        · exact ih p (by rw [h]; exact List.mem_cons_of_mem q hp2)

/-- A separator-free string is a single component. -/
theorem splitDot_no_dot (s : PyStr) (h : '.' ∉ s) : splitDot s = [s] := by
  induction s with
  | nil => rfl
  | cons c rest ih =>
    have hc : c ≠ '.' := fun hh => h (by rw [hh]; exact List.mem_cons_self _ _)
    have hrest : '.' ∉ rest := fun hm => h (List.mem_cons_of_mem c hm)
    simp only [splitDot]
    rw [if_neg hc, ih hrest]

/-- Splitting a string of the form `xs ++ '.' :: ys` with separator-free
`xs` peels off `xs` as the first component. -/
theorem splitDot_append_dot (xs : PyStr) : ∀ ys, '.' ∉ xs →
    splitDot (xs ++ '.' :: ys) = xs :: splitDot ys := by
  induction xs with
  | nil =>
    intro ys _
    simp [splitDot]
  | cons c xs2 ih =>
    intro ys h
    have hc : c ≠ '.' := fun hh => h (by rw [hh]; exact List.mem_cons_self _ _)
    have hxs : '.' ∉ xs2 := fun hm => h (List.mem_cons_of_mem c hm)
    simp only [List.cons_append, splitDot, List.append_eq]
    rw [if_neg hc, ih ys hxs]

/-- A one-component split means the string was separator-free. -/
theorem splitDot_len_one (s : PyStr) (h : (splitDot s).length = 1) : '.' ∉ s := by
  rcases hsp : splitDot s with _ | ⟨p, _ | ⟨q, ps⟩⟩
  · exact absurd hsp (splitDot_ne_nil s)
  · have hs : joinDot [p] = s := by rw [← hsp]; exact joinDot_splitDot s
    intro hm
    rw [← hs] at hm
    exact splitDot_mem_no_dot s p (by rw [hsp]; exact List.mem_cons_self p _) hm
  · rw [hsp] at h
    simp at h

/-! ## Claim C1: the idempotence claim itself -/

/-- C1, counterexample: normalization is not idempotent. For `"1.x.2"` the
truncation to two components re-exposes a `".x"` suffix that the first pass
could not see: `normalize_version("1.x.2") = "1.x"` but
`normalize_version("1.x") = "1"`. The truncation can likewise expose an
edition qualifier whose match was blocked by a later embedded newline
(`.*$` cannot cross it): `normalize_version("9 R2.alpha.beta\ngamma")
= "9 R2.alpha"`, which a second pass strips to `"9"`. -/
theorem normalize_version_not_idempotent :
    normalize_version ("1.x.2".toList) = "1.x".toList ∧
    normalize_version (normalize_version ("1.x.2".toList)) = "1".toList ∧
    normalize_version (normalize_version ("1.x.2".toList))
      ≠ normalize_version ("1.x.2".toList) ∧
    normalize_version ("9 R2.alpha.beta\ngamma".toList) = "9 R2.alpha".toList ∧
    normalize_version (normalize_version ("9 R2.alpha.beta\ngamma".toList)) = "9".toList ∧
    normalize_version (normalize_version ("9 R2.alpha.beta\ngamma".toList))
      ≠ normalize_version ("9 R2.alpha.beta\ngamma".toList) := by
  decide

/-- C1, amended: normalization is idempotent on every version string whose
normalized form is a fixed point of all three suffix substitutions — it
does not end in `".x"`/`"-x"` nor in a case-insensitive `"-log"`, and the
edition pattern `\s+(SP\d+|R\d+|Enterprise|...).*$` does not match in it.
None of the three is automatic: truncation to two components can re-expose
any of the suffixes, including an edition qualifier that was unmatchable in
the first pass only because an embedded newline blocked `.*$`. In general
idempotence fails, see the counterexample. -/
theorem normalize_version_idem (v : PyStr)
    (h1 : stripDotX (normalize_version v) = normalize_version v)
    (h2 : stripLog (normalize_version v) = normalize_version v)
    (h3 : stripEdition (normalize_version v) = normalize_version v) :
    normalize_version (normalize_version v) = normalize_version v := by
  have hnv : normalize_version v = if 1 < (splitDot (strippedStage v)).length
      then joinDot ((splitDot (strippedStage v)).take 2)
      else pyStrip (strippedStage v) := rfl
  have hfinal : normalize_version (normalize_version v)
      = if 1 < (splitDot (strippedStage (normalize_version v))).length
        then joinDot ((splitDot (strippedStage (normalize_version v))).take 2)
        else pyStrip (strippedStage (normalize_version v)) := rfl
  have hstage : strippedStage (normalize_version v) = normalize_version v := by
    unfold strippedStage
    rw [h1, h2, h3]
  by_cases hlen : 1 < (splitDot (strippedStage v)).length
  · rw [if_pos hlen] at hnv
    obtain ⟨p0, p1, rest, hsp⟩ : ∃ p0 p1 rest,
        splitDot (strippedStage v) = p0 :: p1 :: rest := by
      rcases hsp' : splitDot (strippedStage v) with _ | ⟨p0, _ | ⟨p1, rest⟩⟩
      · rw [hsp'] at hlen; simp at hlen
      · rw [hsp'] at hlen; simp at hlen
      · exact ⟨p0, p1, rest, rfl⟩
    rw [hsp] at hnv
    have hr : normalize_version v = p0 ++ '.' :: p1 := hnv
    have hdot0 : '.' ∉ p0 :=
      splitDot_mem_no_dot _ p0 (by rw [hsp]; exact List.mem_cons_self _ _)
    have hdot1 : '.' ∉ p1 :=
      splitDot_mem_no_dot _ p1
        (by rw [hsp]; exact List.mem_cons_of_mem _ (List.mem_cons_self _ _))
    have hsplit_r : splitDot (normalize_version v) = [p0, p1] := by
      rw [hr, splitDot_append_dot p0 p1 hdot0, splitDot_no_dot p1 hdot1]
    rw [hfinal, hstage, hsplit_r, hr]
    rfl
  · rw [if_neg hlen] at hnv
    have hpos : 0 < (splitDot (strippedStage v)).length :=
      List.length_pos.mpr (splitDot_ne_nil _)
    have hlen1 : (splitDot (strippedStage v)).length = 1 := by omega
    have hdot : '.' ∉ strippedStage v := splitDot_len_one _ hlen1
    have hpyeq : pyStrip (strippedStage v)
        = List.rdropWhile isWs (List.dropWhile isWs (strippedStage v)) := rfl
    have hsub : List.Sublist (normalize_version v) (strippedStage v) := by
      rw [hnv, hpyeq]
      exact List.Sublist.trans ( List.rdropWhile_prefix isWs _).sublist
        (List.dropWhile_suffix isWs).sublist
    have hdotr : '.' ∉ normalize_version v := fun hm => hdot (hsub.subset hm)
    have hsplit_r : splitDot (normalize_version v) = [normalize_version v] :=
      splitDot_no_dot _ hdotr
    rw [hfinal, hstage, hsplit_r, if_neg (by simp), hnv]
    exact pyStrip_idem _

/-- C1, witness: idempotence via the amended theorem on `"14.6.2"`, whose
normalized form `"14.6"` is a fixed point of all three substitutions. -/
theorem normalize_version_idem_witness :
    normalize_version (normalize_version ("14.6.2".toList))
      = normalize_version ("14.6.2".toList) :=
  normalize_version_idem ("14.6.2".toList) (by decide) (by decide) (by decide)
